import Mathlib

set_option maxHeartbeats 1000000

/- Shallow embedding of the Hex plugin (packages/frontend/src/utils.ts,
   packages/frontend/src/views/HexViewMode.vue and
   packages/frontend/src/HexEditor.ts).  JavaScript strings are modelled as
   List Char, one entry per UTF-16 code unit; every input of interest lives
   in the basic multilingual plane, where a code unit is a code point. -/

/-- JavaScript whitespace: the character class matched by the regex class
backslash-s, skipped by parseInt and removed by String.prototype.trim. -/
def isJsWs (c : Char) : Bool :=
  let n := c.toNat
  decide (n = 9) || decide (n = 10) || decide (n = 11) || decide (n = 12) ||
  decide (n = 13) || decide (n = 32) || decide (n = 160) || decide (n = 0x1680) ||
  (decide (0x2000 ≤ n) && decide (n ≤ 0x200a)) || decide (n = 0x2028) ||
  decide (n = 0x2029) || decide (n = 0x202f) || decide (n = 0x205f) ||
  decide (n = 0x3000) || decide (n = 0xfeff)

/-- Regex word characters: ASCII letters, digits and underscore. -/
def isWordChar (c : Char) : Bool :=
  let n := c.toNat
  (decide (48 ≤ n) && decide (n ≤ 57)) || (decide (65 ≤ n) && decide (n ≤ 90)) ||
  (decide (97 ≤ n) && decide (n ≤ 122)) || decide (n = 95)

/-- Numeric value of a base-16 digit character, none for any other char. -/
def hexDigitVal (c : Char) : Option Nat :=
  if decide ('0' ≤ c) && decide (c ≤ '9') then some (c.toNat - 48)
  else if decide ('a' ≤ c) && decide (c ≤ 'f') then some (c.toNat - 87)
  else if decide ('A' ≤ c) && decide (c ≤ 'F') then some (c.toNat - 55)
  else none

/-- Accumulate the value of a run of hex digit characters. -/
def hexDigitsVal : List Char → Nat → Nat
  | [], acc => acc
  | c :: rest, acc => hexDigitsVal rest (acc * 16 + (hexDigitVal c).getD 0)

/-- Strip the optional 0x or 0X marker accepted by parseInt at base 16. -/
def strip0x : List Char → List Char
  | '0' :: 'x' :: rest => rest
  | '0' :: 'X' :: rest => rest
  | cs => cs

/-- JavaScript parseInt(s, 16): skip leading whitespace, read an optional
sign, strip an optional 0x marker, then take the longest prefix of base-16
digits; none models NaN (no digit found). -/
def parseIntHex (cs : List Char) : Option Int :=
  let cs1 := cs.dropWhile isJsWs
  let signed : Bool × List Char :=
    match cs1 with
    | '-' :: rest => (true, rest)
    | '+' :: rest => (false, rest)
    | _ => (false, cs1)
  let digits := (strip0x signed.2).takeWhile (fun c => (hexDigitVal c).isSome)
  if digits = [] then none
  else
    let v : Int := Int.ofNat (hexDigitsVal digits 0)
    some (if signed.1 then -v else v)

/-- JavaScript String.prototype.padStart with the pad character 0: a string
already at least n long is returned unchanged. -/
def padStart (n : Nat) (s : List Char) : List Char :=
  List.replicate (n - s.length) '0' ++ s

/-- JavaScript rendering of a parseInt result by Number.prototype.toString
with radix 16: NaN prints as the three letters N a N, a negative value gets
a leading minus sign, and digits are lowercase hex. -/
def renderNum : Option Int → List Char
  | none => ['N', 'a', 'N']
  | some i => if i < 0 then '-' :: Nat.toDigits 16 i.natAbs else Nat.toDigits 16 i.toNat

/-- A byte rendered as by b.toString(16).padStart(2, zero). -/
def toHex2 (n : Nat) : List Char := padStart 2 (Nat.toDigits 16 n)

/-- JavaScript String.prototype.split on a single space character. -/
def splitSp : List Char → List (List Char)
  | [] => [[]]
  | c :: rest =>
    if c = ' ' then [] :: splitSp rest
    else
      match splitSp rest with
      | [] => [[c]]
      | h :: t => (c :: h) :: t

/-- JavaScript Array.prototype.join with a single space separator. -/
def joinSp : List (List Char) → List Char
  | [] => []
  | [t] => t
  | t :: ts => t ++ ' ' :: joinSp ts

/-- hexToAscii from utils.ts (the copy in HexViewMode.vue is identical):
split on spaces, keep only length-2 tokens, parse each with parseInt(h, 16),
drop NaN results, then map bytes 0x20 to 0x7e to their character and every
other value to a dot. -/
def hexToAsciiL (hex : List Char) : List Char :=
  let hexParts := (splitSp hex).filter (fun h => h.length = 2)
  let bytes := hexParts.filterMap parseIntHex
  bytes.map (fun b => if 32 ≤ b ∧ b < 127 then Char.ofNat b.toNat else '.')

def hexToAscii (hex : String) : String := String.mk (hexToAsciiL hex.data)

/-- One output byte of asciiToHex: a character other than dot contributes
its code unit; a dot at position i contributes parseInt of the i-th
length-2 token of the original hex when that token exists (the source also
checks the token for truthiness, which is vacuous for a length-2 string),
and byte 46 otherwise. -/
def byteFor (toks : List (List Char)) (i : Nat) (c : Char) : Option Int :=
  if c = '.' then
    match toks[i]? with
    | some t => parseIntHex t
    | none => some 46
  else some (Int.ofNat c.toNat)

/-- The indexed loop of asciiToHex over the ascii characters. -/
def a2hGo (toks : List (List Char)) : Nat → List Char → List (Option Int)
  | _, [] => []
  | i, c :: rest => byteFor toks i c :: a2hGo toks (i + 1) rest

/-- Length-2 tokens of the optional originalHex argument; an absent or
empty original (falsy in the source) yields no tokens. -/
def origToks : Option (List Char) → List (List Char)
  | some o => (splitSp o).filter (fun h => h.length = 2)
  | none => []

/-- asciiToHex from utils.ts: per-character bytes as in byteFor, each
rendered as b.toString(16).padStart(2, zero), joined with single spaces. -/
def asciiToHexL (ascii : List Char) (originalHex : Option (List Char)) : List Char :=
  joinSp ((a2hGo (origToks originalHex) 0 ascii).map (fun b => padStart 2 (renderNum b)))

def asciiToHex (ascii : String) (originalHex : Option String) : String :=
  String.mk (asciiToHexL ascii.data (originalHex.map String.data))

/-- Modal editor state of HexViewMode.vue (modalState). -/
structure ModalState where
  currentHex : List Char
  originalHex : List Char
  currentAscii : List Char
  originalAscii : List Char
deriving DecidableEq

/-- The asciiToHex local to HexViewMode.vue: same conversion, with dot
placeholders resolved against the modal originalHex snapshot. -/
def modalAsciiToHex (originalHex : List Char) (ascii : List Char) : List Char :=
  joinSp ((a2hGo ((splitSp originalHex).filter (fun h => h.length = 2)) 0 ascii).map
    (fun b => padStart 2 (renderNum b)))

/-- updateHexFromAscii from HexViewMode.vue: recompute currentHex from
currentAscii, resolving dots against the originalHex snapshot. -/
def updateHexFromAscii (st : ModalState) : ModalState :=
  { st with currentHex := modalAsciiToHex st.originalHex st.currentAscii }

/-- ensureCRLF from utils.ts: replace every match of optional CR followed
by LF with CRLF; a CRLF pair matches as one unit, a lone LF matches alone,
and a CR not followed by LF does not match at all. -/
def crlfNorm : List Char → List Char
  | [] => []
  | '\r' :: '\n' :: rest => '\r' :: '\n' :: crlfNorm rest
  | '\n' :: rest => '\r' :: '\n' :: crlfNorm rest
  | c :: rest => c :: crlfNorm rest

def ensureCRLF (rawData : String) : String := String.mk (crlfNorm rawData.data)

/-- JavaScript split on the four-character blank-line boundary CR LF CR LF. -/
def splitCRLF2 : List Char → List (List Char)
  | '\r' :: '\n' :: '\r' :: '\n' :: rest => [] :: splitCRLF2 rest
  | [] => [[]]
  | c :: rest =>
    match splitCRLF2 rest with
    | [] => [[c]]
    | h :: t => (c :: h) :: t

/-- JavaScript split on the two-character line separator CR LF. -/
def splitCRLF : List Char → List (List Char)
  | '\r' :: '\n' :: rest => [] :: splitCRLF rest
  | [] => [[]]
  | c :: rest =>
    match splitCRLF rest with
    | [] => [[c]]
    | h :: t => (c :: h) :: t

def unknownStr : List Char := ['U', 'N', 'K', 'N', 'O', 'W', 'N']

/-- Matching the request line against the anchored regex of one or more
word characters followed by at least one whitespace character: the captured
word run when the line starts with word characters followed by whitespace,
UNKNOWN otherwise. -/
def methodOf (line : List Char) : List Char :=
  let w := line.takeWhile isWordChar
  match w, line.drop w.length with
  | _ :: _, c :: _ => if isJsWs c then w else unknownStr
  | _, _ => unknownStr

/-- JavaScript String.prototype.trim. -/
def jsTrim (s : List Char) : List Char :=
  ((s.dropWhile isJsWs).reverse.dropWhile isJsWs).reverse

/-- JavaScript object property assignment: overwrite an existing key in
place or append a new binding. -/
def insertHeader (hs : List (List Char × List Char)) (k v : List Char) :
    List (List Char × List Char) :=
  if hs.any (fun p => p.1 = k) then
    hs.map (fun p => if p.1 = k then (k, v) else p)
  else hs ++ [(k, v)]

/-- Header loop of parseHttpRaw: skip empty lines, and split each remaining
line at its first colon when that colon is not the first character. -/
def parseHeaders : List (List Char) → List (List Char × List Char) → List (List Char × List Char)
  | [], hs => hs
  | line :: rest, hs =>
    if line = [] then parseHeaders rest hs
    else
      match line.findIdx? (fun c => c = ':') with
      | some i =>
        if 0 < i then
          parseHeaders rest (insertHeader hs (jsTrim (line.take i)) (jsTrim (line.drop (i + 1))))
        else parseHeaders rest hs
      | none => parseHeaders rest hs

/-- Record returned by parseHttpRaw. -/
structure HttpParsed where
  method : List Char
  headers : List (List Char × List Char)
  body : List Char
deriving DecidableEq

/-- parseHttpRaw from utils.ts. -/
def parseHttpRawL (raw : List Char) : Option HttpParsed :=
  if raw = [] then none
  else
    let parts := splitCRLF2 raw
    if parts.length < 2 then none
    else
      let headerSection := parts.headD []
      let body := List.intercalate ['\r', '\n', '\r', '\n'] parts.tail
      let lines := splitCRLF headerSection
      let firstLine := lines.headD []
      some ⟨methodOf firstLine, parseHeaders lines.tail [], body⟩

def parseHttpRaw (raw : String) : Option HttpParsed := parseHttpRawL raw.data

/-- First whitespace-delimited token of a line. -/
def firstWsToken (line : List Char) : List Char :=
  line.takeWhile (fun c => !isJsWs c)

/-- The request line: first CRLF-separated line of the part before the
first blank-line boundary. -/
def firstLineOf (raw : List Char) : List Char :=
  (splitCRLF ((splitCRLF2 raw).headD [])).headD []

/-- Encoding of one code point as UTF-8, as produced by TextEncoder. -/
def utf8Char (c : Char) : List Nat :=
  let n := c.toNat
  if n < 0x80 then [n]
  else if n < 0x800 then [0xc0 + n / 64, 0x80 + n % 64]
  else if n < 0x10000 then [0xe0 + n / 4096, 0x80 + n / 64 % 64, 0x80 + n % 64]
  else [0xf0 + n / 262144, 0x80 + n / 4096 % 64, 0x80 + n / 64 % 64, 0x80 + n % 64]

def utf8Encode (s : List Char) : List Nat := s.flatMap utf8Char

/-- The computed raw of HexViewMode.vue outside the Replay tab: request raw
if truthy, else response raw, else empty; the result is CRLF normalized
when the view is bound to a request. The request and response arguments
are present exactly when the corresponding props are. -/
def rawView (request response : Option (List Char)) : List Char :=
  let rd := match request with
    | some r => if r = [] then response.getD [] else r
    | none => response.getD []
  if rd ≠ [] ∧ request.isSome then crlfNorm rd else rd

/-- The watcher on raw in HexViewMode.vue: a falsy input clears the buffer,
otherwise the text is capped at 10240 characters and UTF-8 encoded. -/
def rawDataBuffer (s : List Char) : List Nat :=
  if s = [] then []
  else utf8Encode (if s.length > 10240 then s.take 10240 else s)

/-- isTruncated from HexViewMode.vue: it reads props.request.raw only. -/
def isTruncated (request : Option (List Char)) : Bool :=
  match request with
  | some r => decide (r.length > 10240)
  | none => false

/-- One row of the hex dump table. -/
structure DumpLine where
  offset : List Char
  hex : List Char
  ascii : List Char
  editing : Bool
deriving DecidableEq

/-- ASCII column rule of the dump: printable bytes to their character,
everything else to a dot. -/
def printableByte (b : Nat) : Char :=
  if 32 ≤ b ∧ b < 127 then Char.ofNat b else '.'

/-- Dump row starting at byte offset i: the chunk slice(i, i + 16), the
offset as 8 zero-padded lowercase hex digits, space-joined 2-digit byte
tokens and the printable ASCII column. -/
def dumpRowAt (data : List Nat) (i : Nat) : DumpLine :=
  let chunk := (data.drop i).take 16
  { offset := padStart 8 (Nat.toDigits 16 i)
    hex := joinSp (chunk.map toHex2)
    ascii := chunk.map printableByte
    editing := false }

/-- The watcher building dumpLines: a sentinel row for an empty buffer,
else one row per loop iteration i = 0, 16, 32, ... below the length. -/
def dumpLines (data : List Nat) : List DumpLine :=
  if data.length = 0 then
    [{ offset := [], hex := [], ascii := "No data to display".data, editing := false }]
  else (List.range ((data.length + 15) / 16)).map (fun r => dumpRowAt data (16 * r))

/-- The byte chunks underlying the dump rows. -/
def dumpChunks (data : List Nat) : List (List Nat) :=
  (List.range ((data.length + 15) / 16)).map (fun r => (data.drop (16 * r)).take 16)

/-- The input listener of an editable HexEditor cell at absolute byte index
pos: a value of at most two hex digits (possibly empty, read as 0 through
parseInt(val or zero, 16)) overwrites that byte and a change event carrying
a copy of the data is emitted (the some result); any other value is ignored
entirely (none, no event). -/
def hexInputEvent (data : List Nat) (pos : Nat) (val : List Char) : Option (List Nat) :=
  if decide (val.length ≤ 2) && val.all (fun c => (hexDigitVal c).isSome) then
    some (data.set pos ((parseIntHex (if val = [] then ['0'] else val)).getD 0).toNat)
  else none
theorem crlfNorm_cons_general (c : Char) (rest : List Char) (hc1 : c ≠ '\n')
    (hc2 : c = '\r' → rest.head? ≠ some '\n') :
    crlfNorm (c :: rest) = c :: crlfNorm rest := by
  rw [crlfNorm.eq_def]
  split <;> simp_all

theorem crlfNorm_head (rest : List Char) (h : rest.head? ≠ some '\n') :
    (crlfNorm rest).head? ≠ some '\n' := by
  induction rest using crlfNorm.induct with
  | case1 => simp [crlfNorm]
  | case2 r ih => simp [crlfNorm]
  | case3 r ih => simp at h
  | case4 c r h1 h2 ih =>
    have hrest : c = '\r' → r.head? ≠ some '\n' := by
      intro hc hr
      rcases r with _ | ⟨x, r'⟩
      · simp at hr
      · simp at hr; exact h1 r' hc (by rw [hr])
    rw [crlfNorm_cons_general c r h2 hrest]
    simpa using fun hc => absurd hc (by simpa using h)

theorem crlfNorm_idem (t : List Char) : crlfNorm (crlfNorm t) = crlfNorm t := by
  induction t using crlfNorm.induct with
  | case1 => rfl
  | case2 rest ih => simp [crlfNorm, ih]
  | case3 rest ih => simp [crlfNorm, ih]
  | case4 c rest h1 h2 ih =>
    have hrest : c = '\r' → rest.head? ≠ some '\n' := by
      intro hc hr
      rcases rest with _ | ⟨x, r'⟩
      · simp at hr
      · simp at hr; exact h1 r' hc (by rw [hr])
    rw [crlfNorm_cons_general c rest h2 hrest]
    rw [crlfNorm_cons_general c (crlfNorm rest) h2
      (fun hc => crlfNorm_head rest (hrest hc))]
    rw [ih]

theorem splitSp_ne_nil (cs : List Char) : splitSp cs ≠ [] := by
  induction cs with
  | nil => simp [splitSp]
  | cons c rest ih =>
    rw [splitSp]
    split
    · simp
    · split <;> simp

theorem splitSp_cons_ne (c : Char) (rest : List Char) (hc : c ≠ ' ') :
    splitSp (c :: rest) =
      (c :: (splitSp rest).headD []) :: (splitSp rest).tail := by
  rw [splitSp]
  rw [if_neg hc]
  rcases h : splitSp rest with _ | ⟨hd, tl⟩
  · exact absurd h (splitSp_ne_nil rest)
  · simp

theorem splitSp_nospace (t : List Char) (ht : ' ' ∉ t) : splitSp t = [t] := by
  induction t with
  | nil => rfl
  | cons c rest ih =>
    have hc : c ≠ ' ' := by intro h; exact ht (by simp [h])
    rw [splitSp_cons_ne c rest hc, ih (by intro h; exact ht (by simp [h]))]
    simp

theorem splitSp_append_space (t cs : List Char) (ht : ' ' ∉ t) :
    splitSp (t ++ ' ' :: cs) = t :: splitSp cs := by
  induction t with
  | nil => simp [splitSp]
  | cons c rest ih =>
    have hc : c ≠ ' ' := by intro h; exact ht (by simp [h])
    rw [List.cons_append, splitSp_cons_ne c _ hc,
      ih (by intro h; exact ht (by simp [h]))]
    simp

theorem splitSp_joinSp (toks : List (List Char)) (hne : toks ≠ [])
    (hsp : ∀ t ∈ toks, ' ' ∉ t) : splitSp (joinSp toks) = toks := by
  induction toks with
  | nil => exact absurd rfl hne
  | cons t ts ih =>
    rcases ts with _ | ⟨t', ts'⟩
    · rw [joinSp, splitSp_nospace t (hsp t (by simp))]
    · rw [joinSp, splitSp_append_space t _ (hsp t (by simp))]
      · rw [ih (by simp) (fun u hu => hsp u (by simp [hu]))]
      · simp

theorem digitChar_ne_space (n : Nat) : Nat.digitChar n ≠ ' ' := by
  by_cases h : n < 16
  · interval_cases n <;> decide
  · unfold Nat.digitChar
    repeat rw [if_neg (by omega)]
    decide

theorem toDigitsCore_ne_space (b fuel n : Nat) (ds : List Char)
    (hds : ∀ c ∈ ds, c ≠ ' ') : ∀ c ∈ Nat.toDigitsCore b fuel n ds, c ≠ ' ' := by
  induction fuel generalizing n ds with
  | zero => simpa [Nat.toDigitsCore] using hds
  | succ fuel ih =>
    rw [Nat.toDigitsCore]
    split
    · intro c hc
      rcases List.mem_cons.mp hc with h | h
      · subst h; exact digitChar_ne_space _
      · exact hds c h
    · exact ih _ _ (by
        intro c hc
        rcases List.mem_cons.mp hc with h | h
        · subst h; exact digitChar_ne_space _
        · exact hds c h)

theorem toDigits_ne_space (b n : Nat) : ∀ c ∈ Nat.toDigits b n, c ≠ ' ' :=
  toDigitsCore_ne_space b (n + 1) n [] (by simp)

theorem renderNum_ne_space (x : Option Int) : ∀ c ∈ renderNum x, c ≠ ' ' := by
  rcases x with _ | i
  · decide
  · rw [renderNum]
    split
    · intro c hc
      rcases List.mem_cons.mp hc with h | h
      · subst h; decide
      · exact toDigits_ne_space 16 _ c h
    · exact toDigits_ne_space 16 _

theorem padStart_nospace (n : Nat) (s : List Char) (hs : ∀ c ∈ s, c ≠ ' ') :
    ' ' ∉ padStart n s := by
  intro h
  rcases List.mem_append.mp h with h | h
  · exact absurd (List.eq_of_mem_replicate h) (by decide)
  · exact hs ' ' h rfl

theorem padStart_ne_nil (s : List Char) : padStart 2 s ≠ [] := by
  unfold padStart
  rcases s with _ | ⟨c, s'⟩ <;> simp

theorem a2hGo_length (toks : List (List Char)) (ascii : List Char) (k : Nat) :
    (a2hGo toks k ascii).length = ascii.length := by
  induction ascii generalizing k with
  | nil => rfl
  | cons c rest ih => simp [a2hGo, ih]

theorem a2hGo_getElem (toks : List (List Char)) (ascii : List Char) (k i : Nat) :
    (a2hGo toks k ascii)[i]? = (ascii[i]?).map (fun c => byteFor toks (k + i) c) := by
  induction ascii generalizing k i with
  | nil => simp [a2hGo]
  | cons c rest ih =>
    rcases i with _ | i
    · simp [a2hGo]
    · rw [a2hGo]
      simp only [List.getElem?_cons_succ]
      rw [ih (k + 1) i]
      have hk : k + 1 + i = k + (i + 1) := by omega
      rw [hk]

theorem a2hGo_nil_toks (ascii : List Char) (k : Nat) :
    a2hGo [] k ascii = ascii.map (fun c => some (Int.ofNat c.toNat)) := by
  induction ascii generalizing k with
  | nil => rfl
  | cons c rest ih =>
    rw [a2hGo, ih]
    congr 1
    rw [byteFor]
    split
    · rename_i h; subst h; rfl
    · rfl

theorem hexByte_facts (n : Nat) (h32 : 32 ≤ n) (h127 : n < 127) :
    parseIntHex (toHex2 n) = some (Int.ofNat n) ∧ (toHex2 n).length = 2 ∧
      ' ' ∉ toHex2 n := by
  revert h32 h127
  revert n
  decide

theorem renderNum_ofNat (n : Nat) : renderNum (some (Int.ofNat n)) = Nat.toDigits 16 n := by
  rw [renderNum]
  simp only [Int.ofNat_eq_coe]
  rw [if_neg (by omega)]
  simp

theorem filterMap_parse_toHex2 (s : List Char)
    (h : ∀ c ∈ s, 32 ≤ c.toNat ∧ c.toNat ≤ 126) :
    (s.map (fun c => toHex2 c.toNat)).filterMap parseIntHex =
      s.map (fun c => Int.ofNat c.toNat) := by
  induction s with
  | nil => rfl
  | cons a s' ih =>
    have ha := h a (by simp)
    rw [List.map_cons, List.filterMap_cons,
      (hexByte_facts a.toNat ha.1 (by omega)).1, List.map_cons,
      ih (fun c hc => h c (by simp [hc]))]

theorem map_printable_id (s : List Char)
    (h : ∀ c ∈ s, 32 ≤ c.toNat ∧ c.toNat ≤ 126) :
    (s.map (fun c => Int.ofNat c.toNat)).map
      (fun b => if 32 ≤ b ∧ b < 127 then Char.ofNat b.toNat else '.') = s := by
  induction s with
  | nil => rfl
  | cons a s' ih =>
    have ha := h a (by simp)
    have h1 : (32 : Int) ≤ Int.ofNat a.toNat := by
      simp only [Int.ofNat_eq_coe]; exact_mod_cast ha.1
    have h2 : Int.ofNat a.toNat < 127 := by
      simp only [Int.ofNat_eq_coe]; exact_mod_cast Nat.lt_succ_of_le ha.2
    rw [List.map_cons, List.map_cons, ih (fun c hc => h c (by simp [hc]))]
    rw [if_pos ⟨h1, h2⟩]
    simp

theorem asciiToHexL_none (s : List Char) :
    asciiToHexL s none = joinSp (s.map (fun c => toHex2 c.toNat)) := by
  rw [asciiToHexL]
  show joinSp ((a2hGo [] 0 s).map (fun b => padStart 2 (renderNum b))) = _
  rw [a2hGo_nil_toks, List.map_map]
  refine congrArg joinSp (List.map_congr_left (fun c _ => ?eq))
  case eq =>
    simp only [Function.comp_apply]
    rw [renderNum_ofNat]
    rfl

theorem hexToAsciiL_roundtrip (s : List Char)
    (h : ∀ c ∈ s, 32 ≤ c.toNat ∧ c.toNat ≤ 126) :
    hexToAsciiL (asciiToHexL s none) = s := by
  rcases s with _ | ⟨a, s'⟩
  · decide
  · rw [asciiToHexL_none]
    have htoks : ∀ t ∈ (a :: s').map (fun c => toHex2 c.toNat), ' ' ∉ t := by
      intro t ht
      rcases List.mem_map.mp ht with ⟨c, hc, rfl⟩
      have hb := h c hc
      exact (hexByte_facts c.toNat hb.1 (by omega)).2.2
    rw [hexToAsciiL]
    show ((((splitSp (joinSp ((a :: s').map (fun c => toHex2 c.toNat)))).filter
      (fun t => t.length = 2)).filterMap parseIntHex).map
      (fun b => if 32 ≤ b ∧ b < 127 then Char.ofNat b.toNat else '.')) = _
    rw [splitSp_joinSp _ (by simp) htoks]
    rw [List.filter_eq_self.mpr (by
      intro t ht
      rcases List.mem_map.mp ht with ⟨c, hc, rfl⟩
      have hb := h c hc
      simp [(hexByte_facts c.toNat hb.1 (by omega)).2.1])]
    rw [filterMap_parse_toHex2 _ h, map_printable_id _ h]

theorem rendered_nospace (b : Option Int) : ' ' ∉ padStart 2 (renderNum b) :=
  padStart_nospace 2 (renderNum b) (renderNum_ne_space b)

theorem splitSp_asciiToHexL (ascii : List Char) (orig : Option (List Char))
    (i : Nat) (c : Char) (h : ascii[i]? = some c) :
    (splitSp (asciiToHexL ascii orig))[i]? =
      some (padStart 2 (renderNum (byteFor (origToks orig) i c))) := by
  have hlen : i < ascii.length := by
    by_contra hc
    rw [List.getElem?_eq_none (by omega)] at h
    exact Option.noConfusion h
  have hne : (a2hGo (origToks orig) 0 ascii).map
      (fun b => padStart 2 (renderNum b)) ≠ [] := by
    intro hmt
    have h2 := congrArg List.length hmt
    rw [List.length_map, a2hGo_length, List.length_nil] at h2
    omega
  rw [asciiToHexL, splitSp_joinSp _ hne (by
    intro t ht
    rcases List.mem_map.mp ht with ⟨b, _, rfl⟩
    exact rendered_nospace b)]
  rw [List.getElem?_map, a2hGo_getElem]
  rw [h]
  simp

theorem splitCRLF2_ne_nil (cs : List Char) : splitCRLF2 cs ≠ [] := by
  induction cs using splitCRLF2.induct with
  | case1 rest ih => simp [splitCRLF2]
  | case2 => simp [splitCRLF2]
  | case3 c rest hno hnil ih => exact absurd hnil ih
  | case4 c rest hno h t heq ih =>
    rw [splitCRLF2.eq_def]
    split
    · simp
    · simp
    · rename_i c2 rest2 heq2
      injection heq2 with e1 e2
      subst e2
      rw [heq]
      simp

theorem splitCRLF2_cons_shape (c : Char) (rest : List Char) (h : List Char)
    (t : List (List Char))
    (hno : ∀ r : List Char, c = '\r' → rest = '\n' :: '\r' :: '\n' :: r → False)
    (heq : splitCRLF2 rest = h :: t) :
    splitCRLF2 (c :: rest) = (c :: h) :: t := by
  rw [splitCRLF2.eq_def]
  split
  · rename_i rest2 heq2
    injection heq2 with e1 e2
    exact (hno rest2 e1 e2).elim
  · rename_i heq2; exact absurd heq2 (by simp)
  · rename_i c2 rest2 heq2
    injection heq2 with e1 e2
    subst e1; subst e2
    rw [heq]

theorem splitCRLF2_two_iff (cs : List Char) :
    2 ≤ (splitCRLF2 cs).length ↔ ['\r', '\n', '\r', '\n'] <:+: cs := by
  induction cs using splitCRLF2.induct with
  | case1 rest ih =>
    constructor
    · intro _
      exact ⟨[], rest, rfl⟩
    · intro _
      rw [splitCRLF2.eq_def]
      simp only [List.length_cons]
      have := splitCRLF2_ne_nil rest
      have hlen : 1 ≤ (splitCRLF2 rest).length := by
        rcases hs : splitCRLF2 rest with _ | ⟨a, b⟩
        · exact absurd hs this
        · simp
      omega
  | case2 =>
    constructor
    · intro hx
      simp [splitCRLF2] at hx
    · intro hx
      have := hx.sublist.length_le
      simp at this
  | case3 c rest hno hnil ih => exact absurd hnil (splitCRLF2_ne_nil rest)
  | case4 c rest hno h t heq ih =>
    rw [splitCRLF2_cons_shape c rest h t hno heq]
    rw [List.infix_cons_iff]
    have hpre : ¬ (['\r', '\n', '\r', '\n'] <+: c :: rest) := by
      intro hp
      rw [List.cons_prefix_cons] at hp
      rcases hp with ⟨e1, hp'⟩
      rcases hp' with ⟨tail, htail⟩
      exact hno tail e1.symm htail.symm
    rw [heq] at ih
    simp only [List.length_cons] at ih ⊢
    constructor
    · intro hx
      exact Or.inr (ih.mp (by omega))
    · intro hx
      rcases hx with hx | hx
      · exact absurd hx hpre
      · have := ih.mpr hx
        omega

theorem word_not_ws (c : Char) (h : isWordChar c = true) : isJsWs c = false := by
  rw [isWordChar] at h
  rw [isJsWs]
  simp only [Bool.or_eq_true, Bool.and_eq_true, decide_eq_true_eq] at h
  simp only [Bool.or_eq_false_iff, Bool.and_eq_false_iff, decide_eq_false_iff_not]
  omega

theorem dropWhile_head_false {α : Type} (p : α → Bool) (l : List α) (c : α)
    (h : (l.dropWhile p).head? = some c) : p c = false := by
  induction l with
  | nil => simp [List.dropWhile] at h
  | cons a l' ih =>
    rw [List.dropWhile] at h
    rcases hp : p a with _ | _
    · rw [hp] at h
      simp at h
      rw [← h]
      exact hp
    · rw [hp] at h
      exact ih h

theorem takeWhile_of_imp {α : Type} (p q : α → Bool) (l : List α)
    (himp : ∀ a, p a = true → q a = true)
    (hstop : ∀ c, (l.dropWhile p).head? = some c → q c = false) :
    l.takeWhile q = l.takeWhile p := by
  induction l with
  | nil => rfl
  | cons a l' ih =>
    rcases hp : p a with _ | _
    · have hq : q a = false := hstop a (by rw [List.dropWhile, hp]; simp)
      rw [List.takeWhile, List.takeWhile, hp, hq]
    · have hq := himp a hp
      rw [List.takeWhile, List.takeWhile, hp, hq]
      rw [ih (by
        intro c hc
        apply hstop
        rw [List.dropWhile, hp]
        exact hc)]

theorem drop_len_takeWhile {α : Type} (p : α → Bool) (l : List α) :
    l.drop (l.takeWhile p).length = l.dropWhile p := by
  have h0 := List.takeWhile_append_dropWhile p l
  conv_lhs =>
    arg 2
    rw [← h0]
  exact List.drop_left _ _

theorem methodOf_spec (line : List Char) :
    methodOf line = unknownStr ∨ methodOf line = firstWsToken line := by
  rw [methodOf]
  rcases hw : line.takeWhile isWordChar with _ | ⟨a, w'⟩
  · simp
  · rcases hd : line.drop (a :: w').length with _ | ⟨c, r⟩
    · simp
    · simp only []
      rcases hws : isJsWs c with _ | _
      · rw [if_neg (by simp [hws])]
        exact Or.inl rfl
      · rw [if_pos (by simp [hws])]
        right
        rw [firstWsToken]
        have hdw : line.dropWhile isWordChar = c :: r := by
          rw [← hd, ← hw]
          exact (drop_len_takeWhile isWordChar line).symm
        rw [← hw]
        exact (takeWhile_of_imp isWordChar (fun x => !isJsWs x) line
          (by
            intro x hx
            simp [word_not_ws x hx])
          (by
            intro x hx
            rw [hdw] at hx
            simp at hx
            rw [← hx]
            simp [hws])).symm

theorem ws_not_word (c : Char) (h : isJsWs c = true) : isWordChar c = false := by
  rcases hw : isWordChar c with _ | _
  · rfl
  · have hf := word_not_ws c hw
    rw [hf] at h
    exact Bool.noConfusion h

theorem takeWhile_eq_prefix {α : Type} (p : α → Bool) (t : List α) (c : α) (rest : List α)
    (ht : ∀ x ∈ t, p x = true) (hc : p c = false) :
    (t ++ c :: rest).takeWhile p = t := by
  induction t with
  | nil => simp [List.takeWhile_cons, hc]
  | cons a t' ih =>
    have ha := ht a (by simp)
    rw [List.cons_append, List.takeWhile_cons, ha]
    simp [ih (fun x hx => ht x (by simp [hx]))]

theorem methodOf_eq (line : List Char) :
    methodOf line =
      if firstWsToken line ≠ [] ∧ (∀ c ∈ firstWsToken line, isWordChar c = true) ∧
          (firstWsToken line).length < line.length
      then firstWsToken line else unknownStr := by
  by_cases hcond : firstWsToken line ≠ [] ∧ (∀ c ∈ firstWsToken line, isWordChar c = true) ∧
      (firstWsToken line).length < line.length
  · rw [if_pos hcond]
    obtain ⟨hne, hword, hlen⟩ := hcond
    have hdecomp := List.takeWhile_append_dropWhile (fun c => !isJsWs c) line
    have hdne : line.dropWhile (fun c => !isJsWs c) ≠ [] := by
      intro h0
      have hl := congrArg List.length hdecomp
      rw [h0, List.append_nil] at hl
      have hlen2 : (List.takeWhile (fun c => !isJsWs c) line).length < line.length := hlen
      omega
    obtain ⟨c, rest, hcr⟩ := List.exists_cons_of_ne_nil hdne
    have hwsc : isJsWs c = true := by
      have hh := dropWhile_head_false (fun c => !isJsWs c) line c (by rw [hcr]; rfl)
      simpa using hh
    have htw : line.takeWhile isWordChar = firstWsToken line := by
      conv_lhs =>
        arg 2
        rw [← hdecomp, hcr]
      exact takeWhile_eq_prefix isWordChar _ c rest hword (ws_not_word c hwsc)
    have hdrop : line.drop (firstWsToken line).length = c :: rest := by
      have hh := drop_len_takeWhile (fun c => !isJsWs c) line
      rw [← hcr]
      exact hh
    rw [methodOf]
    show (match line.takeWhile isWordChar, line.drop (line.takeWhile isWordChar).length with
      | _ :: _, c :: _ => if isJsWs c then line.takeWhile isWordChar else unknownStr
      | _, _ => unknownStr) = firstWsToken line
    rw [htw, hdrop]
    obtain ⟨a, tok2, hta⟩ := List.exists_cons_of_ne_nil hne
    rw [hta]
    show (if isJsWs c then a :: tok2 else unknownStr) = a :: tok2
    rw [if_pos hwsc]
  · rw [if_neg hcond]
    rw [methodOf]
    show (match line.takeWhile isWordChar, line.drop (line.takeWhile isWordChar).length with
      | _ :: _, c :: _ => if isJsWs c then line.takeWhile isWordChar else unknownStr
      | _, _ => unknownStr) = unknownStr
    rcases hw : line.takeWhile isWordChar with _ | ⟨a, w2⟩
    · rfl
    · rcases hd2 : line.drop (a :: w2).length with _ | ⟨c, rest⟩
      · rfl
      · show (if isJsWs c then a :: w2 else unknownStr) = unknownStr
        rcases hws2 : isJsWs c with _ | _
        · rw [if_neg (by simp [hws2])]
        · exfalso
          apply hcond
          have hdw : line.dropWhile isWordChar = c :: rest := by
            rw [← hd2, ← hw]
            exact (drop_len_takeWhile isWordChar line).symm
          have htok : firstWsToken line = a :: w2 := by
            rw [← hw]
            exact takeWhile_of_imp isWordChar (fun x => !isJsWs x) line
              (by
                intro x hx
                simp [word_not_ws x hx])
              (by
                intro x hx
                rw [hdw] at hx
                simp at hx
                rw [← hx]
                simp [hws2])
          refine ⟨by rw [htok]; simp, ?words, ?len⟩
          case words =>
            intro x hx
            rw [htok, ← hw] at hx
            exact List.mem_takeWhile_imp hx
          case len =>
            have hl2 := congrArg List.length hd2
            rw [List.length_drop] at hl2
            have hle : (firstWsToken line).length = (a :: w2).length := by rw [htok]
            rw [hle]
            simp only [List.length_cons] at hl2 ⊢
            omega

theorem parse_some_method (raw : List Char) (r : HttpParsed)
    (h : parseHttpRawL raw = some r) : r.method = methodOf (firstLineOf raw) := by
  simp only [parseHttpRawL] at h
  split at h
  · exact Option.noConfusion h
  · split at h
    · exact Option.noConfusion h
    · injection h with h2
      rw [← h2]
      rfl

theorem parse_none_iff (raw : List Char) :
    parseHttpRawL raw = none ↔ (raw = [] ∨ ¬ (['\r', '\n', '\r', '\n'] <:+: raw)) := by
  simp only [parseHttpRawL]
  split
  · rename_i h0
    simp [h0]
  · rename_i h0
    split
    · rename_i h1
      constructor
      · intro _
        right
        intro hocc
        have := (splitCRLF2_two_iff raw).mpr hocc
        omega
      · intro _
        rfl
    · rename_i h1
      constructor
      · intro hx
        exact Option.noConfusion hx
      · intro hx
        rcases hx with hx | hx
        · exact absurd hx h0
        · exact absurd ((splitCRLF2_two_iff raw).mp (by omega)) hx

theorem chunks_flatten (k : Nat) (data : List Nat) (h : data.length ≤ 16 * k) :
    ((List.range k).map (fun r => (data.drop (16 * r)).take 16)).flatten = data := by
  induction k generalizing data with
  | zero =>
    have : data = [] := by
      rcases data with _ | _
      · rfl
      · simp at h
    simp [this]
  | succ k ih =>
    rw [List.range_succ_eq_map, List.map_cons, List.flatten_cons]
    have hmap : (List.map Nat.succ (List.range k)).map (fun r => (data.drop (16 * r)).take 16)
        = (List.range k).map (fun r => ((data.drop 16).drop (16 * r)).take 16) := by
      rw [List.map_map]
      apply List.map_congr_left
      intro r _
      simp only [Function.comp_apply]
      rw [List.drop_drop]
      congr 2
      omega
    rw [hmap, ih (data.drop 16) (by simp; omega)]
    simp

theorem utf8Encode_replicate_a (n : Nat) :
    utf8Encode (List.replicate n 'a') = List.replicate n 97 := by
  induction n with
  | zero => rfl
  | succ n ih =>
    rw [List.replicate_succ, List.replicate_succ]
    rw [utf8Encode] at ih ⊢
    rw [List.flatMap_cons, ih]
    rfl

/-- Claim C1: for every string over the printable range 0x20 to 0x7e
inclusive, hexToAscii inverts asciiToHex (called without an originalHex),
the dot character included. -/
theorem claim_C1 (s : String) (h : ∀ c ∈ s.data, 32 ≤ c.toNat ∧ c.toNat ≤ 126) :
    hexToAscii (asciiToHex s none) = s := by
  rw [asciiToHex, hexToAscii]
  show String.mk (hexToAsciiL (asciiToHexL s.data none)) = s
  rw [hexToAsciiL_roundtrip s.data h]

theorem claim_C1_witness :
    (∀ c ∈ "Hi.".data, 32 ≤ c.toNat ∧ c.toNat ≤ 126) ∧
      hexToAscii (asciiToHex "Hi." none) = "Hi." :=
  ⟨by decide, claim_C1 "Hi." (by decide)⟩

/-- Claim C2 (code bug): a view bound to a response of 10241 characters has
its buffer truncated to 10240 bytes, while isTruncated, which reads only the
request prop, stays false. -/
theorem claim_C2 :
    (rawView none (some (List.replicate 10241 'a'))).length = 10241 ∧
    (rawDataBuffer (rawView none (some (List.replicate 10241 'a')))).length = 10240 ∧
    isTruncated none = false := by
  have hnn : List.replicate 10241 'a' ≠ ([] : List Char) := by
    intro he
    have hl := congrArg List.length he
    rw [List.length_replicate] at hl
    exact absurd hl (by decide)
  have hview : rawView none (some (List.replicate 10241 'a')) = List.replicate 10241 'a' := by
    rw [rawView]
    exact if_neg (fun hc => absurd hc.2 (by decide))
  refine ⟨by rw [hview, List.length_replicate], ?buf, rfl⟩
  case buf =>
    rw [hview, rawDataBuffer]
    rw [if_neg hnn, if_pos (by rw [List.length_replicate]; omega)]
    rw [List.take_replicate]
    have hmin : min 10240 10241 = 10240 := by omega
    rw [hmin, utf8Encode_replicate_a]
    rw [List.length_replicate]

/-- Claim C3 counterexample: with the ASCII textarea holding a dot, the
current hex holding token 01 and the opening snapshot holding 00, the
recomputed hex token is 00 (the snapshot byte), not the current token 01 as
the claim asserts. -/
theorem claim_C3_cex :
    (updateHexFromAscii ⟨['0', '1'], ['0', '0'], ['.'], ['.']⟩).currentHex = ['0', '0'] ∧
      (['0', '0'] : List Char) ≠ ['0', '1'] := by decide

/-- Claim C3 (amended): editing the ASCII textarea recomputes currentHex
from the ASCII text with the opening-time snapshot originalHex as the
original reference; the current value of currentHex plays no role, and dot
positions resolve to the snapshot byte rather than 2e. -/
theorem claim_C3 :
    (∀ st₁ st₂ : ModalState, st₁.currentAscii = st₂.currentAscii →
      st₁.originalHex = st₂.originalHex →
      (updateHexFromAscii st₁).currentHex = (updateHexFromAscii st₂).currentHex) ∧
    (updateHexFromAscii ⟨['0', '1'], ['0', '0'], ['.'], ['.']⟩).currentHex = ['0', '0'] := by
  constructor
  · intro st₁ st₂ h1 h2
    show modalAsciiToHex st₁.originalHex st₁.currentAscii =
      modalAsciiToHex st₂.originalHex st₂.currentAscii
    rw [h1, h2]
  · decide

theorem claim_C3_witness :
    (ModalState.mk ['a', 'a'] ['0', '0'] ['.'] ['.']).currentAscii =
      (ModalState.mk ['b', 'b'] ['0', '0'] ['.'] ['.']).currentAscii ∧
    (ModalState.mk ['a', 'a'] ['0', '0'] ['.'] ['.']).originalHex =
      (ModalState.mk ['b', 'b'] ['0', '0'] ['.'] ['.']).originalHex ∧
    (updateHexFromAscii (ModalState.mk ['a', 'a'] ['0', '0'] ['.'] ['.'])).currentHex =
      (updateHexFromAscii (ModalState.mk ['b', 'b'] ['0', '0'] ['.'] ['.'])).currentHex :=
  ⟨rfl, rfl, claim_C3.1 _ _ rfl rfl⟩

/-- Claim C4: parseHttpRaw is null exactly on the empty string or when no
CRLFCRLF boundary occurs; with a boundary present it returns a record and
never raises. -/
theorem claim_C4 :
    (∀ raw : List Char, parseHttpRawL raw = none ↔
      (raw = [] ∨ ¬ (['\r', '\n', '\r', '\n'] <:+: raw))) ∧
    parseHttpRaw "" = none ∧
    parseHttpRaw "GET / HTTP/1.1\r\nHost: x" = none ∧
    (parseHttpRaw "GET / HTTP/1.1\r\n\r\n").isSome = true :=
  ⟨parse_none_iff, by decide, by decide, by decide⟩

theorem claim_C4_witness :
    parseHttpRawL "abc".data = none ↔
      ("abc".data = [] ∨ ¬ (['\r', '\n', '\r', '\n'] <:+: "abc".data)) :=
  claim_C4.1 "abc".data

/-- Claim C5 counterexample: the token 4Z is not valid base-16, yet it is
not dropped; parseInt keeps its parseable prefix 4, so the output is H.e of
length 3 instead of the He the claim requires. -/
theorem claim_C5_cex :
    hexToAscii "48 4Z 65" ≠ "He" ∧ hexToAscii "48 4Z 65" = "H.e" := by decide

/-- Claim C5 (amended): tokenization is by single spaces keeping length-2
tokens; a token is dropped only when parseInt(token, 16) is NaN, that is
when no prefix of it parses as base-16 (such as ZZ), while a token with a
parseable prefix such as 4Z is kept with the value of that prefix; the
output length never exceeds the kept token count. -/
theorem claim_C5 :
    hexToAscii "48 ZZ 65" = "He" ∧
    hexToAscii "48 4Z 65" = "H.e" ∧
    (∀ hex : List Char,
      (hexToAsciiL hex).length ≤ ((splitSp hex).filter (fun h => h.length = 2)).length) := by
  refine ⟨by decide, by decide, ?len⟩
  case len =>
    intro hex
    rw [hexToAsciiL]
    rw [List.length_map]
    exact List.length_filterMap_le _ _

/-- Claim C6 counterexample: a dot with original token FF yields the
lowercase re-rendering ff, not the original token FF itself as the claim
asserts. -/
theorem claim_C6_cex :
    asciiToHex "." (some "FF") = "ff" ∧ ("ff" : String) ≠ "FF" := by decide

/-- Claim C6 (amended): the i-th space-separated output token is the
2-digit-padded lowercase rendering of the byte computed for the i-th ascii
character: the code unit of a non-dot character, and for a dot the parseInt
value of the i-th length-2 token of the original (so FF comes out as ff and
an unparseable token as NaN), byte 46 when no such token exists. -/
theorem claim_C6 :
    (∀ (ascii : List Char) (orig : Option (List Char)) (i : Nat) (c : Char),
      ascii[i]? = some c →
      (splitSp (asciiToHexL ascii orig))[i]? =
        some (padStart 2 (renderNum (byteFor (origToks orig) i c)))) ∧
    asciiToHex "A.B" (some "41 00 42") = "41 00 42" ∧
    asciiToHex "A.B" none = "41 2e 42" :=
  ⟨splitSp_asciiToHexL, by decide, by decide⟩

theorem claim_C6_witness :
    ("A.B".data[1]? = some '.') ∧
    (splitSp (asciiToHexL "A.B".data (some "41 00 42".data)))[1]? =
      some (padStart 2 (renderNum (byteFor (origToks (some "41 00 42".data)) 1 '.'))) :=
  ⟨by decide, claim_C6.1 "A.B".data (some "41 00 42".data) 1 '.' (by decide)⟩

/-- Claim C7: ensureCRLF rewrites optional-CR-then-LF to CRLF, leaves a
lone CR alone, does not double an existing CRLF, and is idempotent. -/
theorem claim_C7 :
    ensureCRLF "a\nb\r\nc" = "a\r\nb\r\nc" ∧
    ensureCRLF "x\ry" = "x\ry" ∧
    (∀ t : String, ensureCRLF (ensureCRLF t) = ensureCRLF t) := by
  refine ⟨by decide, by decide, ?idem⟩
  case idem =>
    intro t
    rw [ensureCRLF, ensureCRLF]
    show String.mk (crlfNorm (crlfNorm t.data)) = String.mk (crlfNorm t.data)
    exact congrArg String.mk (crlfNorm_idem t.data)

/-- Claim C8: the dump partitions a non-empty buffer into chunks of at most
16 bytes whose concatenation is the buffer, with one row per chunk; 32 zero
bytes give exactly the two stated rows, 20 bytes give 2 rows, and the empty
buffer gives the single sentinel row. -/
theorem claim_C8 :
    (∀ data : List Nat, data ≠ [] →
      (dumpLines data).length = (data.length + 15) / 16 ∧
      (dumpChunks data).flatten = data) ∧
    dumpLines (List.replicate 32 0) =
      [⟨"00000000".data, "00 00 00 00 00 00 00 00 00 00 00 00 00 00 00 00".data,
        "................".data, false⟩,
       ⟨"00000010".data, "00 00 00 00 00 00 00 00 00 00 00 00 00 00 00 00".data,
        "................".data, false⟩] ∧
    (dumpLines (List.replicate 20 0)).length = 2 ∧
    dumpLines [] = [⟨[], [], "No data to display".data, false⟩] := by
  refine ⟨?gen, by decide, by decide, by decide⟩
  case gen =>
    intro data hne
    constructor
    · rw [dumpLines, if_neg (by simp [List.length_eq_zero, hne])]
      simp
    · rw [dumpChunks]
      exact chunks_flatten _ data (by omega)

theorem claim_C8_witness :
    ([7] : List Nat) ≠ [] ∧
    ((dumpLines [7]).length = (([7] : List Nat).length + 15) / 16 ∧
      (dumpChunks [7]).flatten = [7]) :=
  ⟨by decide, claim_C8.1 [7] (by decide)⟩

/-- Claim C9 counterexample: the input GE#T /x HTTP/1.1 followed by the
blank-line boundary is accepted and its request line has a first
whitespace-delimited token GE#T that is followed by whitespace, yet the
method returned is UNKNOWN, not that token, because the hash sign is not a
regex word character. -/
theorem claim_C9_cex :
    (parseHttpRaw "GE#T /x HTTP/1.1\r\n\r\n").map (fun r => r.method) = some unknownStr ∧
    firstWsToken (firstLineOf "GE#T /x HTTP/1.1\r\n\r\n".data) = "GE#T".data ∧
    (firstWsToken (firstLineOf "GE#T /x HTTP/1.1\r\n\r\n".data)).length <
      (firstLineOf "GE#T /x HTTP/1.1\r\n\r\n".data).length ∧
    unknownStr ≠ "GE#T".data := by decide

/-- Claim C9 (amended): on every accepted input the method equals the first
whitespace-delimited token of the request line exactly when that token is a
nonempty run of word characters (letters, digits, underscore) that is a
proper prefix of the line, hence followed by whitespace; in every other
case, that is an empty token, a token containing a non-word character such
as the hash sign, or a single-token line with nothing after the token, the
method is UNKNOWN. -/
theorem claim_C9 :
    (∀ (raw : List Char) (r : HttpParsed), parseHttpRawL raw = some r →
      r.method =
        if firstWsToken (firstLineOf raw) ≠ [] ∧
            (∀ c ∈ firstWsToken (firstLineOf raw), isWordChar c = true) ∧
            (firstWsToken (firstLineOf raw)).length < (firstLineOf raw).length
        then firstWsToken (firstLineOf raw) else unknownStr) ∧
    (parseHttpRaw "GET / HTTP/1.1\r\n\r\nbody").map (fun r => r.method) = some "GET".data ∧
    (parseHttpRaw "GETONLY\r\n\r\nbody").map (fun r => r.method) = some unknownStr ∧
    (parseHttpRaw "GE#T /x HTTP/1.1\r\n\r\n").map (fun r => r.method) = some unknownStr := by
  refine ⟨?gen, by decide, by decide, by decide⟩
  case gen =>
    intro raw r h
    rw [parse_some_method raw r h]
    exact methodOf_eq (firstLineOf raw)

theorem claim_C9_witness :
    (parseHttpRawL "GET / HTTP/1.1\r\n\r\n".data = some (HttpParsed.mk "GET".data [] [])) ∧
    (HttpParsed.mk "GET".data [] []).method =
      (if firstWsToken (firstLineOf "GET / HTTP/1.1\r\n\r\n".data) ≠ [] ∧
          (∀ c ∈ firstWsToken (firstLineOf "GET / HTTP/1.1\r\n\r\n".data), isWordChar c = true) ∧
          (firstWsToken (firstLineOf "GET / HTTP/1.1\r\n\r\n".data)).length <
            (firstLineOf "GET / HTTP/1.1\r\n\r\n".data).length
       then firstWsToken (firstLineOf "GET / HTTP/1.1\r\n\r\n".data) else unknownStr) :=
  ⟨by decide, claim_C9.1 "GET / HTTP/1.1\r\n\r\n".data (HttpParsed.mk "GET".data [] []) (by decide)⟩

/-- Claim C10: a cell input of zero to two hex digits overwrites exactly
the targeted byte (empty reads as 0) and emits the updated buffer, leaving
every other byte unchanged; any other input leaves the data unchanged and
emits nothing. -/
theorem claim_C10 :
    (∀ (data : List Nat) (pos : Nat) (val : List Char),
      (decide (val.length ≤ 2) && val.all (fun c => (hexDigitVal c).isSome)) = true →
      pos < data.length →
      ∃ out, hexInputEvent data pos val = some out ∧
        out.length = data.length ∧
        out[pos]? = some ((parseIntHex (if val = [] then ['0'] else val)).getD 0).toNat ∧
        (∀ j, j ≠ pos → out[j]? = data[j]?)) ∧
    hexInputEvent [1, 2, 3] 1 [] = some [1, 0, 3] ∧
    hexInputEvent [1, 2, 3] 1 ['a'] = some [1, 10, 3] ∧
    hexInputEvent [1, 2, 3] 1 ['z'] = none ∧
    hexInputEvent [1, 2, 3] 1 ['1', '2', '3'] = none := by
  refine ⟨?gen, by decide, by decide, by decide, by decide⟩
  case gen =>
    intro data pos val hval hpos
    refine ⟨data.set pos ((parseIntHex (if val = [] then ['0'] else val)).getD 0).toNat,
      ?ev, by simp, ?self, ?frame⟩
    case ev => rw [hexInputEvent, if_pos hval]
    case self => rw [List.getElem?_set_self hpos]
    case frame =>
      intro j hj
      rw [List.getElem?_set_ne (Ne.symm hj)]

theorem claim_C10_witness :
    ((decide ((['a'] : List Char).length ≤ 2) &&
       (['a'] : List Char).all (fun c => (hexDigitVal c).isSome)) = true) ∧
    1 < ([1, 2, 3] : List Nat).length ∧
    (∃ out, hexInputEvent [1, 2, 3] 1 ['a'] = some out ∧
      out.length = ([1, 2, 3] : List Nat).length ∧
      out[1]? = some ((parseIntHex (if (['a'] : List Char) = [] then ['0'] else ['a'])).getD 0).toNat ∧
      (∀ j, j ≠ 1 → out[j]? = ([1, 2, 3] : List Nat)[j]?)) :=
  ⟨by decide, by decide, claim_C10.1 [1, 2, 3] 1 ['a'] (by decide) (by decide)⟩
